import Mathlib

/-!
Verification of the signalis matching engine.

The definitions below are a shallow embedding of the Python sources
`src/connector/matcher.py` and `src/connector/semantic_expansion.py`.
Python floats are modelled by exact rationals (`ℚ`), Python `round` by
round-half-to-even on `ℚ`, and the regular expressions of the source
(alternations of literal substrings, some delimited by `\b` word
boundaries) by an explicit literal searcher.  Word characters and
case-lowering are modelled at the ASCII level, matching the source's
behaviour on ASCII text.

The record type `NormalizedRecord` is modelled from the spec (section 3):
`models.py` is not part of the provided sources; the fields and their
string/scalar-or-list shapes are exactly those the matcher reads.
-/

namespace Signalis

/-- Word character in the sense of the regex `\w` (ASCII model). -/
def wordChar (c : Char) : Bool := c.isAlphanum || c == '_'

/-- Python's `str.lower` (ASCII model), as a structurally-reducing map
over the character list. -/
def strLower (s : String) : String := String.mk (s.data.map Char.toLower)

/-- One literal alternative of a regex alternation: the character list of
the literal, plus whether a `\b` word boundary is required on the left
and/or on the right. -/
structure Lit where
  left : Bool
  pat : List Char
  right : Bool
deriving DecidableEq

/-- Plain literal: bare substring occurrence, no boundaries. -/
def plit (s : String) : Lit := ⟨false, s.data, false⟩

/-- Word literal: `\b`-delimited on both sides, as in `\bsoftware\b`. -/
def wlit (s : String) : Lit := ⟨true, s.data, true⟩

/-- Right-bounded literal, as in `ml\b`. -/
def rlit (s : String) : Lit := ⟨false, s.data, true⟩

/-- A boundary requirement holds when it is not requested, or when the
neighbouring character is absent or not a word character. -/
def boundOk (b : Bool) (c : Option Char) : Bool :=
  !b || (match c with | none => true | some c => !wordChar c)

/-- Does `lit` match at the current position?  `prev` is the character
just before the position, `l` the suffix starting at the position. -/
def litMatchAt (prev : Option Char) (lit : Lit) (l : List Char) : Bool :=
  lit.pat.isPrefixOf l && boundOk lit.left prev &&
    boundOk lit.right (l.drop lit.pat.length).head?

/-- Scan every position of the text for a match of `lit`. -/
def litSearchAux (lit : Lit) (prev : Option Char) : List Char → Bool
  | [] => litMatchAt prev lit []
  | c :: rest => litMatchAt prev lit (c :: rest) || litSearchAux lit (some c) rest

/-- `re.search` of an alternation of literals: some alternative matches
somewhere in the text. -/
def reSearch (lits : List Lit) (s : String) : Bool :=
  lits.any fun lit => litSearchAux lit none s.data

/-- Python's substring test `pat in s`. -/
def containsStr (s pat : String) : Bool := litSearchAux (plit pat) none s.data

/-- Python's `round`: round half to even over exact rationals. -/
def pyRound (q : ℚ) : ℤ :=
  let f := Rat.floor q
  if q - f < 1/2 then f
  else if 1/2 < q - f then f + 1
  else if f % 2 = 0 then f else f + 1

/-- A Python value as the matcher sees the `industry` / `size` fields:
`None`, a string, or a non-empty list of strings (an empty list would
make the source's unguarded `industry_raw[0]` indexing raise, so such
records are outside the model). -/
inductive PyVal where
  | vnone : PyVal
  | vstr : String → PyVal
  | vlist : String → List String → PyVal
deriving DecidableEq

/-- The ASCII apostrophe character, used by Python's `str` on lists. -/
def pyQuote : String := String.mk [Char.ofNat 39]

/-- Python's `str` of a list of strings, e.g. `['a', 'b']`. -/
def pyStrOfList (xs : List String) : String :=
  "[" ++ String.intercalate ", " (xs.map fun s => pyQuote ++ s ++ pyQuote) ++ "]"

/-- `to_string_safe` from matcher.py, on the values of the model. -/
def PyVal.toStringSafe : PyVal → String
  | .vnone => ""
  | .vstr s => s
  | .vlist hd tl => pyStrOfList (hd :: tl)

/-- Python `str()` / f-string interpolation of the value. -/
def PyVal.pyStr : PyVal → String
  | .vnone => "None"
  | .vstr s => s
  | .vlist hd tl => pyStrOfList (hd :: tl)

/-- Python truthiness of the value. -/
def PyVal.truthy : PyVal → Bool
  | .vnone => false
  | .vstr s => !(s == "")
  | .vlist _ _ => true

/-- The source idiom `raw[0] if isinstance(raw, list) else raw`, followed
by `to_string_safe`. -/
def PyVal.scalar : PyVal → String
  | .vlist hd _ => hd
  | v => v.toStringSafe

/-- Signal metadata: `signal_meta.kind` and `signal_meta.label`. -/
structure SignalMeta where
  kind : String
  label : String
deriving DecidableEq

/-- Modelled from the spec: `NormalizedRecord` (spec section 3); the
field set is exactly what matcher.py reads.  All plain text fields are
strings (the spec: text fields default to empty string, never null);
`industry` and `size` are scalar-or-list (`PyVal`). -/
structure NormalizedRecord where
  domain : String := ""
  company : String := ""
  full_name : String := ""
  first_name : String := ""
  last_name : String := ""
  email : String := ""
  title : String := ""
  industry : PyVal := .vnone
  signal : String := ""
  signal_meta : Option SignalMeta := none
  company_description : String := ""
  company_funding : String := ""
  size : PyVal := .vnone
  record_key : String := ""
deriving DecidableEq

/-- Modelled from the spec: `NeedProfile` (spec section 3). -/
structure NeedProfile where
  category : String
  specifics : List String
  confidence : ℚ
  source : String
deriving DecidableEq

/-- Modelled from the spec: `CapabilityProfile` (spec section 3). -/
structure CapabilityProfile where
  category : String
  specifics : List String
  confidence : ℚ
  source : String
deriving DecidableEq

/-- Modelled from the spec: `Match` (spec section 3). -/
structure Match where
  demand : NormalizedRecord
  supply : NormalizedRecord
  score : ℤ
  reasons : List String
  tier : String
  tier_reason : String
  need_profile : NeedProfile
  capability_profile : CapabilityProfile
deriving DecidableEq

/-- The `stats` map of a `MatchingResult`. -/
structure MatchStats where
  total_demand : ℕ
  total_supply : ℕ
  total_matches : ℕ
  unique_demands_matched : ℕ
  avg_score : ℤ
deriving DecidableEq

/-- One aggregate group of `aggregate_by_supply`.  The Python dict key
`matches` is rendered `matches'` because `matches` is a Lean keyword. -/
structure SupplyAggregate where
  supply : NormalizedRecord
  matches' : List Match
  best_match : Match
  total_matches : ℕ
deriving DecidableEq

/-- Modelled from the spec: `MatchingResult` (spec section 3). -/
structure MatchingResult where
  demand_matches : List Match
  supply_aggregates : List SupplyAggregate
  stats : MatchStats
deriving DecidableEq

/-! Regex alternations of `extract_need_from_demand` (matcher.py). -/

def needBiotechRe : List Lit :=
  [plit "biotech", plit "pharma", plit "therapeutic", plit "clinical",
   plit "life science", plit "drug", plit "medical device", plit "biopharma"]

def needHealthRe : List Lit :=
  [plit "health", plit "medical", plit "hospital", plit "patient", plit "clinic"]

def biotechPharmaRe : List Lit := [plit "biotech", plit "pharma"]

def needTechRe : List Lit :=
  [wlit "software", plit "saas", wlit "cloud", plit "platform", plit "digital",
   plit "ai company", plit "tech company"]

def techExclRe : List Lit := [plit "biotech", plit "fintech", plit "healthtech"]

def fintechRe : List Lit := [plit "fintech", plit "financial technology"]

def needFinanceRe : List Lit :=
  [plit "financ", plit "banking", plit "insurance", plit "invest", plit "capital", plit "asset"]

def fintechOnlyRe : List Lit := [plit "fintech"]

def fundingRe : List Lit :=
  [plit "raised", plit "funding", plit "series", plit "seed", plit "round"]

def hiringEngRe : List Lit :=
  [plit "engineer", plit "developer", wlit "software", plit "devops", plit "backend",
   plit "frontend", plit "fullstack", rlit "ml", rlit "ai", plit "data scientist"]

def recruitOnlyRe : List Lit := [plit "recruit"]

def seniorRe : List Lit := [plit "senior", plit "staff", plit "lead", plit "principal"]

def mlAiRe : List Lit := [plit "ml", plit "machine learning", rlit "ai"]

def backendRe : List Lit := [plit "backend", plit "server"]

def frontendRe : List Lit := [plit "frontend", plit "react", plit "ui"]

def hiringSalesRe : List Lit :=
  [wlit "sales", plit "account executive", wlit "ae", wlit "sdr", wlit "bdr",
   plit "revenue", plit "business development", plit "closer"]

def vpHeadDirectorRe : List Lit := [plit "vp", plit "head", plit "director"]

def enterpriseRe : List Lit := [plit "enterprise"]

def hiringMarketingRe : List Lit :=
  [plit "marketing", plit "growth", plit "brand", plit "content", wlit "seo",
   plit "paid", plit "demand gen", plit "gtm"]

def headVpDirectorRe : List Lit := [plit "head", plit "vp", plit "director"]

def contentRe : List Lit := [plit "content"]

def hiringFinanceRe : List Lit :=
  [wlit "finance", wlit "cfo", plit "accounting", plit "controller",
   plit "fp&a", plit "bookkeep"]

def hiringOpsRe : List Lit :=
  [plit "operations", wlit "ops", wlit "coo", plit "chief operating",
   plit "supply chain", plit "logistics"]

def hiringRecruitRe : List Lit :=
  [plit "recruiter", plit "talent", wlit "hr", plit "human resources", plit "people ops"]

/-- `extract_need_from_demand` from matcher.py. -/
def extract_need_from_demand (demand : NormalizedRecord) : NeedProfile :=
  let signal := (strLower demand.signal)
  let title := (strLower demand.title)
  let description := (strLower demand.company_description)
  let funding := (strLower demand.company_funding)
  let industry := (strLower demand.industry.toStringSafe)
  let company := (strLower demand.company)
  let is_hiring_data :=
    match demand.signal_meta with
    | some m => m.kind == "HIRING_ROLE"
    | none => false
  if !is_hiring_data then
    let industry_and_desc := industry ++ " " ++ company ++ " " ++ description
    if reSearch needBiotechRe industry_and_desc then
      ⟨"biotech", if funding == "" then [] else ["funded"], 0.85, "industry"⟩
    else if reSearch needHealthRe industry_and_desc &&
        !reSearch biotechPharmaRe industry_and_desc then
      ⟨"healthcare", [], 0.8, "industry"⟩
    else if reSearch needTechRe industry_and_desc &&
        !reSearch techExclRe industry_and_desc then
      ⟨"tech", [], 0.8, "industry"⟩
    else if reSearch fintechRe industry_and_desc then
      ⟨"fintech", [], 0.8, "industry"⟩
    else if reSearch needFinanceRe industry_and_desc &&
        !reSearch fintechOnlyRe industry_and_desc then
      ⟨"finance_co", [], 0.75, "industry"⟩
    else if !(funding == "") || reSearch fundingRe description then
      ⟨"growth", ["post-funding", "scaling"], 0.7, "funding_signal"⟩
    else
      ⟨"company", [], 0.4, "industry"⟩
  else
    let combined := signal ++ " " ++ title
    if reSearch hiringEngRe combined && !reSearch recruitOnlyRe combined then
      let specifics :=
        (if reSearch seniorRe combined then ["senior"] else []) ++
        (if reSearch mlAiRe combined then ["ML/AI"] else []) ++
        (if reSearch backendRe combined then ["backend"] else []) ++
        (if reSearch frontendRe combined then ["frontend"] else [])
      ⟨"engineering", specifics, 0.9, "job_signal"⟩
    else if reSearch hiringSalesRe combined then
      ⟨"sales",
        (if reSearch vpHeadDirectorRe combined then ["leadership"] else []) ++
        (if reSearch enterpriseRe combined then ["enterprise"] else []),
        0.9, "job_signal"⟩
    else if reSearch hiringMarketingRe combined then
      ⟨"marketing",
        (if reSearch headVpDirectorRe combined then ["leadership"] else []) ++
        (if reSearch contentRe combined then ["content"] else []),
        0.9, "job_signal"⟩
    else if reSearch hiringFinanceRe combined then
      ⟨"finance", [], 0.9, "job_signal"⟩
    else if reSearch hiringOpsRe combined then
      ⟨"operations", [], 0.9, "job_signal"⟩
    else if reSearch hiringRecruitRe combined then
      ⟨"recruiting", [], 0.9, "job_signal"⟩
    else if !(funding == "") || reSearch fundingRe (combined ++ " " ++ description) then
      ⟨"growth", ["post-funding", "scaling"], 0.7, "funding_signal"⟩
    else
      ⟨"general", [], 0.3, "none"⟩

/-! Regex alternations of `extract_capability_from_supply` (matcher.py). -/

def capRecruitRe : List Lit :=
  [plit "recruit", plit "staffing", plit "talent acquisition", plit "headhunt",
   plit "placement", plit "hiring agency", plit "staffing agency"]

def capTechSpecRe : List Lit := [plit "engineer", wlit "software"]

def capExecSpecRe : List Lit := [plit "executive", plit "c-suite", plit "leadership"]

def capMarketingRe : List Lit :=
  [plit "marketing agency", plit "ad agency", plit "advertising agency",
   plit "creative agency", plit "pr agency"]

def startupVentureRe : List Lit := [plit "startup", plit "venture"]

def enterpriseB2bRe : List Lit := [plit "enterprise", plit "b2b"]

def capDevRe : List Lit :=
  [plit "dev shop", plit "development agency", plit "software agency",
   plit "software consultancy", plit "app development"]

def startupRe : List Lit := [plit "startup"]

def mobileRe : List Lit := [plit "mobile", plit "ios", plit "android"]

def capConsultRe : List Lit :=
  [plit "consulting firm", plit "advisory firm", plit "management consulting",
   plit "strategy consulting", plit "consultancy"]

def capFractionalRe : List Lit :=
  [plit "fractional", plit "interim", plit "outsourced cfo", plit "outsourced coo",
   plit "part-time executive"]

def fbBiotechRe : List Lit :=
  [plit "biotech", plit "pharma", plit "therapeutic", plit "clinical",
   plit "life science", plit "biopharma"]

def fbHealthRe : List Lit := [plit "health", plit "medical", plit "hospital"]

def fbTechRe : List Lit := [wlit "software", plit "saas", wlit "cloud", plit "platform"]

def fbTechExclRe : List Lit :=
  [plit "agency", plit "shop", plit "development company", plit "consultancy"]

def fbFinanceRe : List Lit :=
  [plit "financ", plit "banking", plit "investment", plit "capital"]

def bdTitleRe : List Lit :=
  [plit "business development", plit "licensing", plit "partnerships", rlit "bd"]

def execTitleRe : List Lit :=
  [plit "ceo", plit "cto", plit "cfo", plit "coo", plit "founder",
   plit "co-founder", plit "president", plit "chief"]

/-- The contact-fallback half of `extract_capability_from_supply`
(the source's "FALLBACK: this is a CONTACT at a company" section), on
the combined text and the lowercased title. -/
def extract_capability_fallback (combined title : String) : CapabilityProfile :=
  if reSearch fbBiotechRe combined then
    ⟨"biotech_contact", [], 0.7, "industry"⟩
  else if reSearch fbHealthRe combined && !reSearch biotechPharmaRe combined then
    ⟨"healthcare_contact", [], 0.65, "industry"⟩
  else if reSearch fbTechRe combined && !reSearch fbTechExclRe combined then
    ⟨"tech_contact", [], 0.6, "industry"⟩
  else if reSearch fbFinanceRe combined && !reSearch recruitOnlyRe combined then
    ⟨"finance_contact", [], 0.6, "industry"⟩
  else if reSearch bdTitleRe title then
    ⟨"bd_professional", [], 0.7, "title"⟩
  else if reSearch execTitleRe title then
    ⟨"executive", [], 0.5, "title"⟩
  else
    ⟨"professional", [], 0.3, "none"⟩

/-- `extract_capability_from_supply` from matcher.py. -/
def extract_capability_from_supply (supply : NormalizedRecord) : CapabilityProfile :=
  let description := (strLower supply.company_description)
  let title := (strLower supply.title)
  let company := (strLower supply.company)
  let industry := (strLower supply.industry.scalar)
  let combined := description ++ " " ++ title ++ " " ++ company ++ " " ++ industry
  if reSearch capRecruitRe combined then
    let specifics :=
      (if reSearch capTechSpecRe combined then ["tech"] else []) ++
      (if reSearch capExecSpecRe combined then ["executive"] else [])
    let confidence : ℚ :=
      if containsStr description "recruit" then 0.95
      else if containsStr title "recruit" then 0.85 else 0.7
    let source :=
      if containsStr description "recruit" then "description"
      else if containsStr title "recruit" then "title" else "company_name"
    ⟨"recruiting", specifics, confidence, source⟩
  else if reSearch capMarketingRe combined then
    ⟨"marketing",
      (if reSearch startupVentureRe combined then ["startups"] else []) ++
      (if reSearch enterpriseB2bRe combined then ["enterprise"] else []),
      0.9, "description"⟩
  else if reSearch capDevRe combined then
    ⟨"engineering",
      (if reSearch startupRe combined then ["startups"] else []) ++
      (if reSearch mobileRe combined then ["mobile"] else []),
      0.8, "description"⟩
  else if reSearch capConsultRe combined then
    ⟨"consulting", [], 0.75, "description"⟩
  else if reSearch capFractionalRe combined then
    ⟨"fractional", [], 0.8, "title"⟩
  else extract_capability_fallback combined title

/-- The `industry_matches` dict of `score_alignment`. -/
def industryMatches (needCat : String) : Option (List String) :=
  if needCat == "biotech" then some ["biotech_contact", "bd_professional"]
  else if needCat == "healthcare" then some ["healthcare_contact", "biotech_contact"]
  else if needCat == "tech" then some ["tech_contact", "engineering"]
  else if needCat == "fintech" then some ["finance_contact", "tech_contact"]
  else if needCat == "finance_co" then some ["finance_contact", "consulting"]
  else none

/-- The `cross_matches` dict of `score_alignment`. -/
def crossMatches (needCat : String) : Option (List String) :=
  if needCat == "engineering" then some ["recruiting", "consulting"]
  else if needCat == "sales" then some ["marketing", "recruiting"]
  else if needCat == "marketing" then some ["sales", "growth"]
  else if needCat == "finance" then some ["consulting", "fractional"]
  else none

/-- The body of `score_alignment` from matcher.py on the two category
strings (`need_cat` / `cap_cat` in the source): the sequence of early
returns is rendered as one if-chain. -/
def score_alignment_cat (need_cat cap_cat : String) : ℚ :=
  if ((industryMatches need_cat).map fun l => l.head? == some cap_cat).getD false then 50
  else if ((industryMatches need_cat).map fun l => l.contains cap_cat).getD false then 40
  else if cap_cat == "recruiting" &&
      ["engineering", "sales", "marketing", "finance", "operations", "recruiting"].contains need_cat then 45
  else if cap_cat == "engineering" && need_cat == "engineering" then 40
  else if cap_cat == "marketing" && need_cat == "marketing" then 50
  else if cap_cat == "consulting" &&
      ["operations", "growth", "finance_co", "company"].contains need_cat then 35
  else if cap_cat == "fractional" &&
      ["growth", "finance", "operations"].contains need_cat then 40
  else if cap_cat == "bd_professional" then
    if ["growth", "biotech", "healthcare", "tech", "fintech"].contains need_cat then 35 else 20
  else if cap_cat == "executive" then
    if need_cat == "growth" then 30 else 15
  else if need_cat == "growth" then
    if ["marketing", "recruiting"].contains cap_cat then 40
    else if ["consulting", "fractional"].contains cap_cat then 35
    else if !(["general", "professional"].contains cap_cat) then 25
    else 15
  else if ((crossMatches need_cat).getD []).contains cap_cat then 25
  else if ["general", "company"].contains need_cat then
    if ["consulting", "bd_professional"].contains cap_cat then 20 else 15
  else if ["general", "professional"].contains cap_cat then 10
  else 5

/-- `score_alignment` from matcher.py (reads the two profile categories). -/
def score_alignment (need : NeedProfile) (capability : CapabilityProfile) : ℚ :=
  score_alignment_cat need.category capability.category

/-- The `need_labels` dict of `determine_tier`. -/
def needLabelTable : List (String × String) :=
  [("engineering", "Hiring engineers"), ("sales", "Hiring sales"),
   ("marketing", "Hiring marketing"), ("recruiting", "Hiring recruiters"),
   ("finance", "Hiring finance"), ("operations", "Hiring operations"),
   ("growth", "Raised funding"), ("general", "Active company"),
   ("biotech", "Biotech company"), ("healthcare", "Healthcare company"),
   ("tech", "Tech company"), ("fintech", "Fintech company"),
   ("finance_co", "Finance company"), ("company", "Company")]

/-- The `cap_labels` dict of `determine_tier`. -/
def capLabelTable : List (String × String) :=
  [("recruiting", "Recruiter"), ("marketing", "Marketing agency"),
   ("engineering", "Dev shop"), ("consulting", "Consultant"),
   ("fractional", "Fractional exec"), ("sales", "Sales consultant"),
   ("finance", "Finance consultant"), ("operations", "Ops consultant"),
   ("growth", "Growth partner"), ("general", "Provider"),
   ("biotech_contact", "Biotech BD contact"), ("healthcare_contact", "Healthcare contact"),
   ("tech_contact", "Tech contact"), ("finance_contact", "Finance contact"),
   ("bd_professional", "BD professional"), ("executive", "Executive"),
   ("professional", "Professional")]

/-- Python `dict.get` on a label table. -/
def lookupTable (t : List (String × String)) (k : String) : Option String :=
  (t.find? fun p => p.1 == k).map (·.2)

/-- `determine_tier` from matcher.py; `demand_signal_label` is the Python
optional argument (`None` or a string, the empty string being falsy). -/
def determine_tier (score : ℤ) (need : NeedProfile) (capability : CapabilityProfile)
    (demand_signal_label : Option String) : String × String :=
  let fallback := (lookupTable needLabelTable need.category).getD need.category
  let need_label :=
    match demand_signal_label with
    | some l => if l == "" then fallback else l
    | none => fallback
  let cap_label := (lookupTable capLabelTable capability.category).getD "Provider"
  let tier_reason := need_label ++ " → " ++ cap_label
  let combined_confidence := (need.confidence + capability.confidence) / 2
  if score ≥ 70 ∧ combined_confidence ≥ 0.7 then ("strong", tier_reason)
  else if score ≥ 45 ∨ (score ≥ 30 ∧ combined_confidence ≥ 0.5) then ("good", tier_reason)
  else ("open", tier_reason)

/-- The `related_groups` table of `score_industry`. -/
def relatedGroups : List (List String) :=
  [["software", "tech", "technology", "saas", "it"],
   ["finance", "fintech", "banking", "financial services"],
   ["healthcare", "health", "medical", "biotech", "pharma"],
   ["staffing", "recruiting", "hr", "talent", "human resources"],
   ["marketing", "advertising", "media", "digital marketing"],
   ["sales", "business development", "revenue"]]

/-- `score_industry` from matcher.py. -/
def score_industry (demand_industry supply_industry : PyVal) : ℚ :=
  if !demand_industry.truthy || !supply_industry.truthy then 10
  else
    let d := (strLower demand_industry.scalar)
    let s := (strLower supply_industry.scalar)
    if d == s then 30
    else if containsStr s d || containsStr d s then 20
    else if relatedGroups.any
        (fun g => (g.any fun t => containsStr d t) && (g.any fun t => containsStr s t)) then 15
    else 5

def engineerSignalRe : List Lit :=
  [plit "engineer", plit "developer", plit "software", plit "tech", plit "cto"]

def salesSignalRe : List Lit :=
  [plit "sales", plit "account", plit "revenue", plit "sdr", plit "bdr"]

def marketingSignalRe : List Lit :=
  [plit "marketing", plit "growth", plit "brand", plit "content"]

def recruitingSignalRe : List Lit :=
  [plit "recruiter", plit "talent", plit "hr", plit "hiring"]

def financeSignalRe : List Lit :=
  [plit "finance", plit "cfo", plit "accounting", plit "controller"]

def servesEngineeringRe : List Lit :=
  [plit "engineer", plit "developer", plit "tech", plit "software"]

def servesSalesRe : List Lit := [plit "sales", plit "revenue", plit "business"]

def servesMarketingRe : List Lit := [plit "marketing", plit "growth", plit "brand"]

def servesRecruitingRe : List Lit :=
  [plit "recruit", plit "staffing", plit "talent", plit "hr"]

def servesFinanceRe : List Lit := [plit "finance", plit "accounting", plit "cfo"]

/-- `score_signal` from matcher.py.  The title and industry strings are
concatenated without a separator, exactly as `title + industry` in the
source. -/
def score_signal (demand_signal : String) (supply_title : String)
    (supply_industry : PyVal) : ℚ :=
  if demand_signal == "" then 5
  else
    let signal := (strLower demand_signal)
    let title := (strLower supply_title)
    let industry := (strLower supply_industry.toStringSafe)
    let ti := title ++ industry
    if reSearch engineerSignalRe signal && reSearch servesEngineeringRe ti then 40
    else if reSearch salesSignalRe signal && reSearch servesSalesRe ti then 40
    else if reSearch marketingSignalRe signal && reSearch servesMarketingRe ti then 40
    else if reSearch recruitingSignalRe signal && reSearch servesRecruitingRe ti then 40
    else if reSearch financeSignalRe signal && reSearch servesFinanceRe ti then 40
    else if reSearch servesRecruitingRe ti then 25
    else 10

/-- `parse_size` from matcher.py: keep the digits, parse, default 50. -/
def parse_size (s : String) : ℕ :=
  let digits := s.data.filter Char.isDigit
  if digits.isEmpty then 50
  else digits.foldl (fun n c => 10 * n + (c.toNat - 48)) 0

/-- `score_size` from matcher.py. -/
def score_size (demand_size supply_size : PyVal) : ℚ :=
  if !demand_size.truthy || !supply_size.truthy then 10
  else
    let d_size := parse_size demand_size.scalar
    let s_size := parse_size supply_size.scalar
    let ratio : ℚ := (d_size : ℚ) / ((max s_size 1 : ℕ) : ℚ)
    if 1/2 ≤ ratio ∧ ratio ≤ 5 then 20
    else if 1/5 ≤ ratio ∧ ratio ≤ 10 then 15
    else 5

/-- `SUPPLY_CAPABILITY_EXPANSIONS` from semantic_expansion.py. -/
def supplyCapabilityExpansions : List (String × List String) :=
  [("recruiting",
    ["hiring", "talent acquisition", "staffing", "headhunting",
     "recruiter", "placement", "sourcing", "talent", "hire",
     "engineer", "engineers", "engineering", "developer", "software",
     "sales", "marketing"]),
   ("recruit", ["hiring", "talent", "staffing", "hire"]),
   ("staffing", ["recruiting", "hiring", "talent", "hire"]),
   ("talent", ["recruiting", "hiring", "staffing", "hire"]),
   ("engineering_recruiting",
    ["technical hiring", "hire engineers", "engineering hires",
     "tech hiring", "developer hiring", "engineer", "software"]),
   ("sales_recruiting",
    ["sales hiring", "hire salespeople", "sales hires", "revenue hiring"]),
   ("marketing_recruiting",
    ["marketing hiring", "hire marketers", "marketing hires"]),
   ("executive_recruiting",
    ["executive hiring", "leadership hiring", "c-suite hiring", "executive search"])]

/-- `DEMAND_NEED_EXPANSIONS` from semantic_expansion.py. -/
def demandNeedExpansions : List (String × List String) :=
  [("hiring",
    ["recruiting", "talent acquisition", "staffing", "team building",
     "headcount", "recruit", "recruiter"]),
   ("engineer",
    ["recruiting", "staffing", "talent", "hire", "hiring", "technical hiring"]),
   ("engineers", ["recruiting", "staffing", "talent", "hire", "hiring"]),
   ("engineering",
    ["recruiting", "staffing", "talent", "hire", "hiring",
     "engineering hires", "hire engineers", "technical hiring",
     "developer", "software engineer", "tech talent"]),
   ("software", ["recruiting", "staffing", "talent", "hire", "engineering"]),
   ("developer", ["recruiting", "staffing", "talent", "hire", "engineering"]),
   ("sales",
    ["recruiting", "staffing", "talent", "hire", "hiring",
     "sales hires", "hire salespeople", "sales talent", "revenue team"]),
   ("marketing",
    ["recruiting", "staffing", "talent", "hire", "hiring",
     "marketing hires", "hire marketers", "marketing talent"]),
   ("operations",
    ["recruiting", "staffing", "talent", "hire",
     "operations hires", "hire ops", "ops talent"]),
   ("finance",
    ["recruiting", "staffing", "talent", "hire",
     "finance hires", "hire finance", "accounting talent"])]

/-- Python dict lookup on an expansion map. -/
def lookupExpansion (m : List (String × List String)) (k : String) : Option (List String) :=
  (m.find? fun p => p.1 == k).map (·.2)

/-- `SEMANTIC_MATCHING_ENABLED` feature flag. -/
def SEMANTIC_MATCHING_ENABLED : Bool := true

/-- The side of a `SemanticContext` (the Python literals `demand` / `supply`). -/
inductive Side where
  | demand : Side
  | supply : Side
deriving DecidableEq

def Side.isDemand : Side → Bool
  | .demand => true
  | .supply => false

def Side.isSupply : Side → Bool
  | .demand => false
  | .supply => true

/-- `SemanticContext` from semantic_expansion.py. -/
structure SemanticContext where
  side : Side
  text : String
deriving DecidableEq

/-- Hiring-context indicator regex of `resolve_ambiguous_term`:
`\b(hire|hiring|team|headcount|recruit|talent|staffing|placement)\b`. -/
def hiringContextRe : List Lit :=
  [wlit "hire", wlit "hiring", wlit "team", wlit "headcount", wlit "recruit",
   wlit "talent", wlit "staffing", wlit "placement"]

/-- Recruiting-context indicator regex of `resolve_ambiguous_term`:
`\b(recruit|recruiting|staffing|talent|headhunt|placement|sourcing)\b`. -/
def recruitingContextRe : List Lit :=
  [wlit "recruit", wlit "recruiting", wlit "staffing", wlit "talent",
   wlit "headhunt", wlit "placement", wlit "sourcing"]

/-- The two possible resolutions of an ambiguous term. -/
inductive Resolution where
  | need : Resolution
  | capability : Resolution
deriving DecidableEq

/-- `resolve_ambiguous_term` from semantic_expansion.py. -/
def resolve_ambiguous_term (term : String) (ctx : SemanticContext) : Option Resolution :=
  let lower_term := (strLower term)
  let lower_text := (strLower ctx.text)
  let has_hiring_context := reSearch hiringContextRe lower_text
  let has_recruiting_context := reSearch recruitingContextRe lower_text
  if ["engineering", "engineer", "engineers"].contains lower_term then
    if ctx.side.isDemand && has_hiring_context then some .need
    else if ctx.side.isSupply && has_recruiting_context then some .capability
    else none
  else if lower_term == "sales" then
    if ctx.side.isDemand && has_hiring_context then some .need
    else if ctx.side.isSupply && has_recruiting_context then some .capability
    else none
  else if lower_term == "marketing" then
    if ctx.side.isDemand && has_hiring_context then some .need
    else if ctx.side.isSupply && has_recruiting_context then some .capability
    else none
  else if lower_term == "growth" then
    if has_hiring_context then some (if ctx.side.isDemand then .need else .capability)
    else none
  else none

/-- Accumulator of `expand_semantic_signals`: the `expanded` set and the
insertion-ordered `reasons` dict. -/
structure ExpState where
  expanded : Finset String
  reasons : List (String × List String)

/-- The source idiom `reasons.setdefault(k, []).append(tag)` on the
insertion-ordered dict. -/
def addReason (reasons : List (String × List String)) (k tag : String) :
    List (String × List String) :=
  if reasons.any (fun p => p.1 == k) then
    reasons.map fun p => if p.1 == k then (p.1, p.2 ++ [tag]) else p
  else reasons ++ [(k, [tag])]

/-- Add every expansion (lowercased) to the set and tag it, as in the
taxonomy and ambiguity branches of `expand_semantic_signals`. -/
def addAll (tag : String) (st : ExpState) (exps : List String) : ExpState :=
  exps.foldl (fun st e =>
    let el := (strLower e)
    ⟨insert el st.expanded, addReason st.reasons el tag⟩) st

/-- Add the expansions, but tag only those not already present, as in the
text-based context-detection blocks (`if exp_lower not in expanded`). -/
def addAllNew (tag : String) (st : ExpState) (exps : List String) : ExpState :=
  exps.foldl (fun st e =>
    let el := (strLower e)
    if el ∈ st.expanded then st
    else ⟨insert el st.expanded, addReason st.reasons el tag⟩) st

/-- The per-token body of the main loop of `expand_semantic_signals`:
direct taxonomy match, then ambiguity resolution. -/
def processToken (ctx : SemanticContext) (st : ExpState) (token : String) : ExpState :=
  let lower_token := (strLower token)
  let expansion_map :=
    if ctx.side.isDemand then demandNeedExpansions else supplyCapabilityExpansions
  let st1 :=
    match lookupExpansion expansion_map lower_token with
    | some exps => addAll ("taxonomy:" ++ lower_token) st exps
    | none => st
  match resolve_ambiguous_term lower_token ctx with
  | some .need =>
    if ctx.side.isDemand then
      addAll ("ambiguity:" ++ lower_token ++ "→need") st1
        ((lookupExpansion demandNeedExpansions "hiring").getD [])
    else st1
  | some .capability =>
    if ctx.side.isSupply then
      addAll ("ambiguity:" ++ lower_token ++ "→capability") st1
        ((lookupExpansion supplyCapabilityExpansions "recruiting").getD [])
    else st1
  | none => st1

/-- Supply-side text-detection regex of `expand_semantic_signals`:
`\b(recruit|recruiting|staffing|talent|headhunt|placement)\b`. -/
def textRecruitRe : List Lit :=
  [wlit "recruit", wlit "recruiting", wlit "staffing", wlit "talent",
   wlit "headhunt", wlit "placement"]

/-- Demand-side text-detection regex of `expand_semantic_signals`:
`\b(hiring|hire|hires|team building|headcount)\b`. -/
def textHiringRe : List Lit :=
  [wlit "hiring", wlit "hire", wlit "hires", wlit "team building", wlit "headcount"]

/-- `SemanticExpansionResult` from semantic_expansion.py (sets are modelled
by `Finset String`). -/
structure SemanticExpansionResult where
  base : Finset String
  expanded : Finset String
  reasons : List (String × List String)
deriving DecidableEq

/-- The token loop of `expand_semantic_signals` starting from the base set. -/
def tokenPhase (tokens : List String) (ctx : SemanticContext) : ExpState :=
  tokens.foldl (processToken ctx) ⟨(tokens.map strLower).toFinset, []⟩

/-- The supply-side text-based context-detection block of
`expand_semantic_signals` (MATCH-1D). -/
def supplyTextPhase (ctx : SemanticContext) (st : ExpState) : ExpState :=
  if ctx.side.isSupply && reSearch textRecruitRe (strLower ctx.text) then
    addAllNew "text:recruiting_detected" st
      ((lookupExpansion supplyCapabilityExpansions "recruiting").getD [])
  else st

/-- The demand-side text-based context-detection block of
`expand_semantic_signals` (MATCH-1D). -/
def demandTextPhase (ctx : SemanticContext) (st : ExpState) : ExpState :=
  if ctx.side.isDemand && reSearch textHiringRe (strLower ctx.text) then
    addAllNew "text:hiring_detected" st
      ((lookupExpansion demandNeedExpansions "hiring").getD [])
  else st

/-- `expand_semantic_signals` from semantic_expansion.py: token loop,
then the two text-based context-detection blocks. -/
def expand_semantic_signals (tokens : List String) (ctx : SemanticContext) :
    SemanticExpansionResult :=
  let base := (tokens.map strLower).toFinset
  if !SEMANTIC_MATCHING_ENABLED then ⟨base, base, []⟩
  else
    let st3 := demandTextPhase ctx (supplyTextPhase ctx (tokenPhase tokens ctx))
    ⟨base, st3.expanded, st3.reasons⟩

/-- The maximal non-whitespace runs of a character list: Python's
`str.split()` with no separator. -/
def runs (l : List Char) : List (List Char) :=
  (l.foldr (fun c acc =>
    if c.isWhitespace then [] :: acc
    else
      match acc with
      | [] => [[c]]
      | g :: gs => (c :: g) :: gs) []).filter fun g => !g.isEmpty

/-- `extract_tokens` from semantic_expansion.py: lowercase, replace
non-word non-space characters by a space, split on whitespace, keep
tokens longer than two characters. -/
def extract_tokens (text : String) : List String :=
  if text == "" then []
  else
    let cleaned :=
      (strLower text).data.map fun c => if wordChar c || c.isWhitespace then c else ' '
    ((runs cleaned).map String.mk).filter fun t => t.length > 2

/-- `compute_semantic_overlap`'s `overlapCount`: the number of demand
tokens present in the supply set, i.e. the intersection cardinality.
(The companion `matchedTokens` list enumerates the same set in Python's
nondeterministic set order and is never read by the scorer.) -/
def overlapCount (demand_tokens supply_tokens : Finset String) : ℕ :=
  (demand_tokens ∩ supply_tokens).card

/-- `calculate_semantic_bonus` from semantic_expansion.py. -/
def calculate_semantic_bonus (overlap_count : ℕ) : ℚ :=
  if overlap_count ≥ 5 then 30
  else if overlap_count ≥ 3 then 20
  else if overlap_count ≥ 1 then 10
  else 0

/-- The `bonus` and `overlapCount` entries of `get_semantic_score`'s result. -/
structure SemanticScore where
  bonus : ℚ
  overlap : ℕ
deriving DecidableEq

/-- `get_semantic_score` from semantic_expansion.py. -/
def get_semantic_score (demand_text supply_text : String) : SemanticScore :=
  let demand_result :=
    expand_semantic_signals (extract_tokens demand_text) ⟨.demand, demand_text⟩
  let supply_result :=
    expand_semantic_signals (extract_tokens supply_text) ⟨.supply, supply_text⟩
  let n := overlapCount demand_result.expanded supply_result.expanded
  ⟨calculate_semantic_bonus n, n⟩

/-- The combined demand text of `score_match`
(`f"{signal} {title} {description} {industry}"`, with f-string `str()`
rendering of the industry value). -/
def demandText (demand : NormalizedRecord) : String :=
  demand.signal ++ " " ++ demand.title ++ " " ++ demand.company_description ++ " " ++
    demand.industry.pyStr

/-- The combined supply text of `score_match`. -/
def supplyText (supply : NormalizedRecord) : String :=
  supply.signal ++ " " ++ supply.title ++ " " ++ supply.company_description ++ " " ++
    supply.industry.pyStr

/-- The semantic result used by `score_match` for a pair. -/
def semanticOf (demand supply : NormalizedRecord) : SemanticScore :=
  get_semantic_score (demandText demand) (supplyText supply)

/-- Step 5 of `score_match`: the weighted blend plus the additive
semantic bonus, before rounding and clamping. -/
def blendScore (demand supply : NormalizedRecord) : ℚ :=
  score_industry demand.industry supply.industry * 0.15 +
  score_signal demand.signal supply.title supply.industry * 0.15 +
  score_size demand.size supply.size * 0.10 +
  score_alignment (extract_need_from_demand demand) (extract_capability_from_supply supply) * 0.50 +
  10 * 0.10 +
  (semanticOf demand supply).bonus

/-- `total_score = min(100, round(total_score))` of `score_match`. -/
def totalScore (demand supply : NormalizedRecord) : ℤ :=
  min 100 (pyRound (blendScore demand supply))

/-- The `reasons` list accumulated by steps 2-4 of `score_match`, in
evaluation order. -/
def baseReasons (demand supply : NormalizedRecord) : List String :=
  let need := extract_need_from_demand demand
  let cap := extract_capability_from_supply supply
  let sem := semanticOf demand supply
  (if score_industry demand.industry supply.industry > 20 then ["Industry match"] else []) ++
  (if score_signal demand.signal supply.title supply.industry > 25 then ["Signal alignment"] else []) ++
  (if score_size demand.size supply.size > 10 then ["Size fit"] else []) ++
  (if score_alignment need cap ≥ 40 then
    [need.category ++ " need → " ++ cap.category ++ " capability"]
   else if score_alignment need cap ≥ 25 then ["Cross-functional fit"] else []) ++
  (if sem.bonus ≥ 20 then
    ["Strong keyword overlap (" ++ toString sem.overlap ++ " matches)"]
   else if sem.bonus ≥ 10 then
    ["Keyword overlap (" ++ toString sem.overlap ++ " matches)"]
   else [])

/-- `score_match` from matcher.py. -/
def score_match (demand supply : NormalizedRecord) : Match :=
  let need := extract_need_from_demand demand
  let cap := extract_capability_from_supply supply
  let total0 := totalScore demand supply
  let tt := determine_tier total0 need cap (demand.signal_meta.map (·.label))
  { demand := demand
    supply := supply
    score := if total0 = 0 then 1 else total0
    reasons :=
      if total0 = 0 then baseReasons demand supply ++ ["Exploratory match"]
      else baseReasons demand supply
    tier := tt.1
    tier_reason := tt.2
    need_profile := need
    capability_profile := cap }

/-- `get_demand_key` from matcher.py. -/
def get_demand_key (demand : NormalizedRecord) : String :=
  if !(demand.record_key == "") then demand.record_key
  else if !(demand.full_name == "") then demand.full_name
  else demand.company ++ "-" ++ demand.title

/-- `get_supply_key` from matcher.py. -/
def get_supply_key (supply : NormalizedRecord) : String :=
  if !(supply.record_key == "") then supply.record_key
  else if !(supply.domain == "") then supply.domain
  else if !(supply.full_name == "") then supply.full_name
  else supply.company ++ "-" ++ supply.title

/-- The cross-product scoring loop of `match_records`: every pair in
iteration order, kept when `score >= min_score`.  (The optional progress
callback has no effect on the result and is not modelled.) -/
def allMatches (demand supply : List NormalizedRecord) (min_score : ℤ) : List Match :=
  demand.flatMap fun d => supply.filterMap fun s =>
    let m := score_match d s
    if m.score ≥ min_score then some m else none

/-- Python's stable `list.sort(key=score, reverse=True)`. -/
def sortByScoreDesc (l : List Match) : List Match :=
  l.mergeSort fun a b => decide (b.score ≤ a.score)

/-- The loop of `get_best_match_per_demand` with its `seen` set. -/
def bestAux (seen : List String) : List Match → List Match
  | [] => []
  | m :: rest =>
    let k := get_demand_key m.demand
    if seen.contains k then bestAux seen rest
    else m :: bestAux (k :: seen) rest

/-- `get_best_match_per_demand` from matcher.py. -/
def get_best_match_per_demand (l : List Match) : List Match := bestAux [] l

/-- One step of building the insertion-ordered `by_supply` dict of
`aggregate_by_supply`: append the match to its key's bucket, creating
the bucket on first sight of the key. -/
def groupStep (acc : List (String × List Match)) (m : Match) : List (String × List Match) :=
  let k := get_supply_key m.supply
  if acc.any (fun p => p.1 == k) then
    acc.map fun p => if p.1 == k then (p.1, p.2 ++ [m]) else p
  else acc ++ [(k, [m])]

/-- The insertion-ordered `by_supply` dict built by `aggregate_by_supply`. -/
def groupBySupply (ms : List Match) : List (String × List Match) :=
  ms.foldl groupStep []

/-- One aggregate of `aggregate_by_supply`: sort the group's matches by
score descending, count unique demand keys.  A group is never empty
(each key is created with its first match), so the `none` branch is
unreachable. -/
def mkAggregate (p : String × List Match) : Option SupplyAggregate :=
  match sortByScoreDesc p.2 with
  | [] => none
  | m :: rest =>
    some ⟨m.supply, m :: rest, m,
      (((m :: rest).map fun x => get_demand_key x.demand).dedup).length⟩

/-- `aggregate_by_supply` from matcher.py. -/
def aggregate_by_supply (ms : List Match) : List SupplyAggregate :=
  ((groupBySupply ms).filterMap mkAggregate).mergeSort
    fun a b => decide (b.total_matches ≤ a.total_matches)

/-- `match_records` from matcher.py. -/
def match_records (demand supply : List NormalizedRecord) (min_score : ℤ)
    (best_match_only : Bool) : MatchingResult :=
  let all := sortByScoreDesc (allMatches demand supply min_score)
  let demand_matches := if best_match_only then get_best_match_per_demand all else all
  let supply_aggregates := aggregate_by_supply demand_matches
  let scores : List ℤ := all.map (·.score)
  let avg_score : ℤ :=
    if scores.isEmpty then 0 else pyRound ((scores.sum : ℚ) / (scores.length : ℚ))
  let unique_demands := ((demand_matches.map fun m : Match => get_demand_key m.demand).dedup).length
  ⟨demand_matches, supply_aggregates,
    ⟨demand.length, supply.length, demand_matches.length, unique_demands, avg_score⟩⟩

/-! Basic facts about the rounding and the individual scorers. -/

lemma ratFloor_eq (q : ℚ) : (Rat.floor q : ℤ) = ⌊q⌋ :=
  (Rat.floor_def' q).trans Rat.floor_def.symm

lemma six_le_pyRound {q : ℚ} (h : 11/2 ≤ q) : 6 ≤ pyRound q := by
  have hf : (Rat.floor q : ℤ) = ⌊q⌋ := ratFloor_eq q
  have h5 : (5 : ℤ) ≤ ⌊q⌋ := by
    rw [Int.le_floor]; push_cast; linarith
  unfold pyRound
  rw [hf]
  dsimp only
  by_cases h6 : (6 : ℤ) ≤ ⌊q⌋
  · split_ifs <;> omega
  · have hq5 : ⌊q⌋ = 5 := by omega
    have hr : (1/2 : ℚ) ≤ q - (⌊q⌋ : ℚ) := by
      rw [hq5]; push_cast; linarith
    split_ifs with h1 h2 h3
    · linarith
    · omega
    · omega
    · omega

lemma five_le_score_industry (a b : PyVal) : 5 ≤ score_industry a b := by
  unfold score_industry; dsimp only; split_ifs <;> norm_num

lemma five_le_score_signal (sg t : String) (ind : PyVal) : 5 ≤ score_signal sg t ind := by
  unfold score_signal; dsimp only; split_ifs <;> norm_num

lemma five_le_score_size (a b : PyVal) : 5 ≤ score_size a b := by
  unfold score_size; dsimp only; split_ifs <;> norm_num

lemma le_ite_of {c : Prop} [Decidable c] {a b x : ℚ} (ha : x ≤ a) (hb : x ≤ b) :
    x ≤ if c then a else b := by
  split <;> assumption

lemma five_le_score_alignment_cat (n c : String) : 5 ≤ score_alignment_cat n c := by
  unfold score_alignment_cat
  repeat' apply le_ite_of
  all_goals norm_num

lemma five_le_score_alignment (n : NeedProfile) (c : CapabilityProfile) :
    5 ≤ score_alignment n c :=
  five_le_score_alignment_cat n.category c.category

lemma bonus_nonneg (n : ℕ) : 0 ≤ calculate_semantic_bonus n := by
  unfold calculate_semantic_bonus; split_ifs <;> norm_num

lemma semanticOf_bonus_nonneg (d s : NormalizedRecord) : 0 ≤ (semanticOf d s).bonus := by
  simp only [semanticOf, get_semantic_score]
  exact bonus_nonneg _

lemma blend_ge (d s : NormalizedRecord) : (11/2 : ℚ) ≤ blendScore d s := by
  have h1 := five_le_score_industry d.industry s.industry
  have h2 := five_le_score_signal d.signal s.title s.industry
  have h3 := five_le_score_size d.size s.size
  have h4 := five_le_score_alignment (extract_need_from_demand d)
    (extract_capability_from_supply s)
  have h5 := semanticOf_bonus_nonneg d s
  unfold blendScore
  have e1 : (0.15 : ℚ) = 3/20 := by norm_num
  have e2 : (0.10 : ℚ) = 1/10 := by norm_num
  have e3 : (0.50 : ℚ) = 1/2 := by norm_num
  rw [e1, e2, e3]
  linarith

lemma six_le_totalScore (d s : NormalizedRecord) : 6 ≤ totalScore d s := by
  unfold totalScore
  exact le_min (by norm_num) (six_le_pyRound (blend_ge d s))

lemma totalScore_le (d s : NormalizedRecord) : totalScore d s ≤ 100 := by
  unfold totalScore; exact min_le_left _ _

lemma score_match_score (d s : NormalizedRecord) :
    (score_match d s).score = totalScore d s := by
  have h := six_le_totalScore d s
  show (if totalScore d s = 0 then 1 else totalScore d s) = totalScore d s
  rw [if_neg (by omega)]

lemma score_match_reasons (d s : NormalizedRecord) :
    (score_match d s).reasons = baseReasons d s := by
  have h := six_le_totalScore d s
  show (if totalScore d s = 0 then baseReasons d s ++ ["Exploratory match"]
    else baseReasons d s) = baseReasons d s
  rw [if_neg (by omega)]

lemma score_match_bounds (d s : NormalizedRecord) :
    1 ≤ (score_match d s).score ∧ (score_match d s).score ≤ 100 := by
  rw [score_match_score]
  have h1 := six_le_totalScore d s
  have h2 := totalScore_le d s
  omega

lemma ne_alignment_reason (a b : String) :
    a ++ " need → " ++ b ++ " capability" ≠ "Exploratory match" := by
  intro h
  apply congrArg String.length at h
  simp only [String.length_append,
    show (" need → " : String).length = 8 from rfl,
    show (" capability" : String).length = 11 from rfl,
    show ("Exploratory match" : String).length = 17 from rfl] at h
  omega

lemma ne_strong_reason (s : String) :
    "Strong keyword overlap (" ++ s ++ " matches)" ≠ "Exploratory match" := by
  intro h
  apply congrArg String.length at h
  simp only [String.length_append,
    show ("Strong keyword overlap (" : String).length = 24 from rfl,
    show (" matches)" : String).length = 9 from rfl,
    show ("Exploratory match" : String).length = 17 from rfl] at h
  omega

lemma ne_weak_reason (s : String) :
    "Keyword overlap (" ++ s ++ " matches)" ≠ "Exploratory match" := by
  intro h
  apply congrArg String.length at h
  simp only [String.length_append,
    show ("Keyword overlap (" : String).length = 17 from rfl,
    show (" matches)" : String).length = 9 from rfl,
    show ("Exploratory match" : String).length = 17 from rfl] at h
  omega

lemma exploratory_not_mem_baseReasons (d s : NormalizedRecord) :
    "Exploratory match" ∉ baseReasons d s := by
  intro hmem
  unfold baseReasons at hmem
  simp only [List.mem_append] at hmem
  rcases hmem with ((((h | h) | h) | h) | h) <;> (split_ifs at h <;> simp at h)
  all_goals first
    | exact ne_alignment_reason _ _ h.symm
    | exact ne_strong_reason _ h.symm
    | exact ne_weak_reason _ h.symm

/-! Membership facts about the orchestrator's lists. -/

lemma mem_allMatches {m : Match} {d s : List NormalizedRecord} {ms : ℤ}
    (h : m ∈ allMatches d s ms) : ∃ a ∈ d, ∃ b ∈ s, m = score_match a b := by
  simp only [allMatches, List.mem_flatMap, List.mem_filterMap] at h
  obtain ⟨a, ha, b, hb, hmb⟩ := h
  split at hmb
  · exact ⟨a, ha, b, hb, (Option.some.inj hmb).symm⟩
  · exact absurd hmb (by simp)

lemma mem_sortByScoreDesc {m : Match} {l : List Match} :
    m ∈ sortByScoreDesc l ↔ m ∈ l :=
  (List.mergeSort_perm l _).mem_iff

lemma bestAux_sublist (seen : List String) (l : List Match) :
    (bestAux seen l).Sublist l := by
  induction l generalizing seen with
  | nil => simp [bestAux]
  | cons x rest ih =>
    unfold bestAux
    dsimp only
    split
    · exact (ih seen).cons x
    · exact (ih _).cons₂ x

lemma mem_bestAux {m : Match} {seen : List String} {l : List Match}
    (h : m ∈ bestAux seen l) : m ∈ l :=
  (bestAux_sublist seen l).subset h

lemma groupStep_mem {acc : List (String × List Match)} {m : Match}
    {p : String × List Match} {x : Match}
    (hp : p ∈ groupStep acc m) (hx : x ∈ p.2) :
    (∃ q ∈ acc, x ∈ q.2) ∨ x = m := by
  unfold groupStep at hp
  dsimp only at hp
  split at hp
  · simp only [List.mem_map] at hp
    obtain ⟨q, hq, rfl⟩ := hp
    split at hx
    · rcases List.mem_append.mp hx with h | h
      · exact Or.inl ⟨q, hq, h⟩
      · exact Or.inr (by simpa using h)
    · exact Or.inl ⟨q, hq, hx⟩
  · rcases List.mem_append.mp hp with h | h
    · exact Or.inl ⟨p, h, hx⟩
    · have : p = (get_supply_key m.supply, [m]) := by simpa using h
      subst this
      exact Or.inr (by simpa using hx)

lemma groupBy_foldl_mem :
    ∀ (l : List Match) (acc : List (String × List Match))
      (p : String × List Match), p ∈ l.foldl groupStep acc →
      ∀ x ∈ p.2, (∃ q ∈ acc, x ∈ q.2) ∨ x ∈ l := by
  intro l
  induction l with
  | nil =>
    intro acc p hp x hx
    exact Or.inl ⟨p, hp, hx⟩
  | cons m rest ih =>
    intro acc p hp x hx
    rw [List.foldl_cons] at hp
    rcases ih (groupStep acc m) p hp x hx with ⟨q, hq, hxq⟩ | hxl
    · rcases groupStep_mem hq hxq with ⟨r, hr, hxr⟩ | rfl
      · exact Or.inl ⟨r, hr, hxr⟩
      · exact Or.inr (List.mem_cons_self _ _)
    · exact Or.inr (List.mem_cons_of_mem _ hxl)

lemma mem_groupBySupply {p : String × List Match} {ms : List Match} {x : Match}
    (hp : p ∈ groupBySupply ms) (hx : x ∈ p.2) : x ∈ ms := by
  rcases groupBy_foldl_mem ms [] p hp x hx with ⟨q, hq, _⟩ | h
  · exact absurd hq (by simp)
  · exact h

lemma best_match_mem {g : SupplyAggregate} {ms : List Match}
    (hg : g ∈ aggregate_by_supply ms) : g.best_match ∈ g.matches' := by
  unfold aggregate_by_supply at hg
  have hg' := (List.mergeSort_perm _ _).mem_iff.mp hg
  simp only [List.mem_filterMap] at hg'
  obtain ⟨p, hp, hmk⟩ := hg'
  rcases hsp : sortByScoreDesc p.2 with - | ⟨m0, rest⟩ <;>
    unfold mkAggregate at hmk <;> rw [hsp] at hmk
  · exact absurd hmk (by simp)
  · have hge := Option.some.inj hmk
    subst hge
    exact List.mem_cons_self _ _

lemma mem_aggregate_matches {g : SupplyAggregate} {ms : List Match} {x : Match}
    (hg : g ∈ aggregate_by_supply ms) (hx : x ∈ g.matches') : x ∈ ms := by
  unfold aggregate_by_supply at hg
  have hg' := (List.mergeSort_perm _ _).mem_iff.mp hg
  simp only [List.mem_filterMap] at hg'
  obtain ⟨p, hp, hmk⟩ := hg'
  rcases hsp : sortByScoreDesc p.2 with - | ⟨m0, rest⟩ <;>
    unfold mkAggregate at hmk <;> rw [hsp] at hmk
  · exact absurd hmk (by simp)
  · have hge := Option.some.inj hmk
    have hxm : x ∈ m0 :: rest := by rw [← hge] at hx; exact hx
    have : x ∈ sortByScoreDesc p.2 := by rw [hsp]; exact hxm
    exact mem_groupBySupply hp (mem_sortByScoreDesc.mp this)

lemma match_records_demand_matches (d s : List NormalizedRecord) (ms : ℤ) (bmo : Bool) :
    (match_records d s ms bmo).demand_matches =
      if bmo then get_best_match_per_demand (sortByScoreDesc (allMatches d s ms))
      else sortByScoreDesc (allMatches d s ms) := rfl

lemma match_records_supply_aggregates (d s : List NormalizedRecord) (ms : ℤ) (bmo : Bool) :
    (match_records d s ms bmo).supply_aggregates =
      aggregate_by_supply ((match_records d s ms bmo).demand_matches) := rfl

lemma mem_demand_matches_allMatches {d s : List NormalizedRecord} {ms : ℤ} {bmo : Bool}
    {m : Match} (hm : m ∈ (match_records d s ms bmo).demand_matches) :
    m ∈ allMatches d s ms := by
  rw [match_records_demand_matches] at hm
  split at hm
  · exact mem_sortByScoreDesc.mp (mem_bestAux hm)
  · exact mem_sortByScoreDesc.mp hm

/-- C9: for every demand/supply record pair the composite score of
`score_match` is at least 6: each feature scorer and the alignment
scorer return at least 5, the base term contributes 1, so the blend is
at least 5.5 and rounds (half-to-even) to at least 6; hence the
`total_score == 0` branch is unreachable and the reason
`"Exploratory match"` never occurs. -/
theorem match_score_floor_six (d s : NormalizedRecord) :
    5 ≤ score_industry d.industry s.industry ∧
    5 ≤ score_signal d.signal s.title s.industry ∧
    5 ≤ score_size d.size s.size ∧
    5 ≤ score_alignment (extract_need_from_demand d) (extract_capability_from_supply s) ∧
    (11/2 : ℚ) ≤ blendScore d s ∧
    6 ≤ (score_match d s).score ∧
    "Exploratory match" ∉ (score_match d s).reasons := by
  refine ⟨five_le_score_industry _ _, five_le_score_signal _ _ _, five_le_score_size _ _,
    five_le_score_alignment _ _, blend_ge d s, ?_, ?_⟩
  · rw [score_match_score]; exact six_le_totalScore d s
  · rw [score_match_reasons]; exact exploratory_not_mem_baseReasons d s

/-- C1: for every demand list, supply list and `min_score`, every match
returned by `match_records` — in `demand_matches` and inside every
`supply_aggregates` group — has a score between 1 and 100. -/
theorem match_records_score_in_range (demand supply : List NormalizedRecord)
    (min_score : ℤ) (bmo : Bool) :
    (∀ m ∈ (match_records demand supply min_score bmo).demand_matches,
      1 ≤ m.score ∧ m.score ≤ 100) ∧
    (∀ g ∈ (match_records demand supply min_score bmo).supply_aggregates,
      (∀ m ∈ g.matches', 1 ≤ m.score ∧ m.score ≤ 100) ∧
      (1 ≤ g.best_match.score ∧ g.best_match.score ≤ 100)) := by
  have hall : ∀ m ∈ allMatches demand supply min_score, 1 ≤ m.score ∧ m.score ≤ 100 := by
    intro m hm
    obtain ⟨a, -, b, -, rfl⟩ := mem_allMatches hm
    exact score_match_bounds a b
  refine ⟨fun m hm => hall m (mem_demand_matches_allMatches hm), fun g hg => ?_⟩
  rw [match_records_supply_aggregates] at hg
  have hgm : ∀ m ∈ g.matches', 1 ≤ m.score ∧ m.score ≤ 100 := fun m hm =>
    hall m (mem_demand_matches_allMatches (mem_aggregate_matches hg hm))
  exact ⟨hgm, hgm _ (best_match_mem hg)⟩

/-! Sortedness of the orchestrator's outputs. -/

lemma sorted_sortByScoreDesc (l : List Match) :
    (sortByScoreDesc l).Pairwise (fun a b => b.score ≤ a.score) := by
  have h := @List.sorted_mergeSort Match (fun a b : Match => decide (b.score ≤ a.score))
    (fun a b c hab hbc => by
      simp only [decide_eq_true_eq] at *
      omega)
    (fun a b => by
      simp only [Bool.or_eq_true, decide_eq_true_eq]
      omega) l
  exact h.imp fun hab => of_decide_eq_true hab

lemma sorted_aggregate_by_supply (ms : List Match) :
    (aggregate_by_supply ms).Pairwise (fun a b => b.total_matches ≤ a.total_matches) := by
  have h := @List.sorted_mergeSort SupplyAggregate
    (fun a b : SupplyAggregate => decide (b.total_matches ≤ a.total_matches))
    (fun a b c hab hbc => by
      simp only [decide_eq_true_eq] at *
      omega)
    (fun a b => by
      simp only [Bool.or_eq_true, decide_eq_true_eq]
      omega) ((groupBySupply ms).filterMap mkAggregate)
  exact h.imp fun hab => of_decide_eq_true hab

/-- C3: `demand_matches` is sorted non-increasing by score (in both
output modes) and `supply_aggregates` is sorted non-increasing by
`total_matches`. -/
theorem match_records_sorted (demand supply : List NormalizedRecord)
    (min_score : ℤ) (bmo : Bool) :
    (match_records demand supply min_score bmo).demand_matches.Pairwise
      (fun a b => b.score ≤ a.score) ∧
    (match_records demand supply min_score bmo).supply_aggregates.Pairwise
      (fun a b => b.total_matches ≤ a.total_matches) := by
  constructor
  · rw [match_records_demand_matches]
    split
    · exact List.Pairwise.sublist (bestAux_sublist [] _) (sorted_sortByScoreDesc _)
    · exact sorted_sortByScoreDesc _
  · rw [match_records_supply_aggregates]
    exact sorted_aggregate_by_supply _

/-! Facts about `get_best_match_per_demand` via `bestAux`. -/

lemma bestAux_key_not_seen {seen : List String} {l : List Match} {m : Match}
    (h : m ∈ bestAux seen l) : get_demand_key m.demand ∉ seen := by
  induction l generalizing seen with
  | nil => simp [bestAux] at h
  | cons x rest ih =>
    unfold bestAux at h
    dsimp only at h
    split at h
    · exact ih h
    · rcases List.mem_cons.mp h with rfl | h2
      · next hc => simpa using hc
      · intro hs
        exact ih h2 (List.mem_cons_of_mem _ hs)

lemma bestAux_keys_nodup (seen : List String) (l : List Match) :
    ((bestAux seen l).map fun m : Match => get_demand_key m.demand).Nodup := by
  induction l generalizing seen with
  | nil => simp [bestAux]
  | cons x rest ih =>
    unfold bestAux
    dsimp only
    split
    · exact ih seen
    · simp only [List.map_cons, List.nodup_cons]
      refine ⟨?_, ih _⟩
      intro hmem
      obtain ⟨m, hm, hkey⟩ := List.mem_map.mp hmem
      have hns := bestAux_key_not_seen hm
      rw [hkey] at hns
      exact hns (List.mem_cons_self _ _)

lemma bestAux_keys_mem (l : List Match) :
    ∀ (seen : List String) (k : String),
      (k ∈ (bestAux seen l).map fun m : Match => get_demand_key m.demand) ↔
      ((k ∈ l.map fun m : Match => get_demand_key m.demand) ∧ k ∉ seen) := by
  induction l with
  | nil => simp [bestAux]
  | cons x rest ih =>
    intro seen k
    unfold bestAux
    dsimp only
    by_cases hc : seen.contains (get_demand_key x.demand) = true
    · rw [if_pos hc, ih seen k]
      simp only [List.map_cons, List.mem_cons]
      constructor
      · rintro ⟨hk, hns⟩
        exact ⟨Or.inr hk, hns⟩
      · rintro ⟨rfl | hk, hns⟩
        · exact absurd (by simpa using hc) hns
        · exact ⟨hk, hns⟩
    · rw [if_neg hc]
      simp only [List.map_cons, List.mem_cons, ih _ k]
      constructor
      · rintro (rfl | ⟨hk, hns⟩)
        · exact ⟨Or.inl rfl, by simpa using hc⟩
        · exact ⟨Or.inr hk, fun hs => hns (Or.inr hs)⟩
      · rintro ⟨rfl | hk, hns⟩
        · exact Or.inl rfl
        · by_cases hkx : k = get_demand_key x.demand
          · exact Or.inl hkx
          · refine Or.inr ⟨hk, ?_⟩
            intro hs
            rcases hs with h | h
            · exact hkx h
            · exact hns h

lemma bestAux_maximal (l : List Match)
    (hs : l.Pairwise fun a b => b.score ≤ a.score) :
    ∀ (seen : List String), ∀ m ∈ bestAux seen l, ∀ m' ∈ l,
      get_demand_key m'.demand = get_demand_key m.demand → m'.score ≤ m.score := by
  induction l with
  | nil => simp [bestAux]
  | cons x rest ih =>
    intro seen m hm m' hm' hk
    have hx : ∀ y ∈ rest, y.score ≤ x.score := (List.pairwise_cons.mp hs).1
    have hrest := (List.pairwise_cons.mp hs).2
    unfold bestAux at hm
    dsimp only at hm
    by_cases hc : seen.contains (get_demand_key x.demand) = true
    · rw [if_pos hc] at hm
      have hmns := bestAux_key_not_seen hm
      rcases List.mem_cons.mp hm' with rfl | hm'r
      · exfalso
        apply hmns
        rw [← hk]
        simpa using hc
      · exact ih hrest seen m hm m' hm'r hk
    · rw [if_neg hc] at hm
      rcases List.mem_cons.mp hm with rfl | hm2
      · rcases List.mem_cons.mp hm' with rfl | h
        · exact le_refl _
        · exact hx _ h
      · have hmns := bestAux_key_not_seen hm2
        rcases List.mem_cons.mp hm' with rfl | hm'r
        · exact absurd (by rw [← hk]; exact List.mem_cons_self _ _) hmns
        · exact ih hrest _ m hm2 m' hm'r hk

/-- C2: with `best_match_only = true`, `demand_matches` has exactly one
match per distinct demand key occurring among the above-threshold pairs,
and that match carries the maximum score among the above-threshold
matches with that key. -/
theorem best_match_only_unique_and_maximal (demand supply : List NormalizedRecord)
    (min_score : ℤ) :
    ((match_records demand supply min_score true).demand_matches.map
      fun m : Match => get_demand_key m.demand).Nodup ∧
    (∀ k : String,
      (k ∈ (match_records demand supply min_score true).demand_matches.map
        fun m : Match => get_demand_key m.demand) ↔
      (k ∈ (allMatches demand supply min_score).map fun m : Match => get_demand_key m.demand)) ∧
    (∀ m ∈ (match_records demand supply min_score true).demand_matches,
      ∀ m' ∈ allMatches demand supply min_score,
        get_demand_key m'.demand = get_demand_key m.demand → m'.score ≤ m.score) := by
  have hdm : (match_records demand supply min_score true).demand_matches =
      bestAux [] (sortByScoreDesc (allMatches demand supply min_score)) := rfl
  rw [hdm]
  refine ⟨bestAux_keys_nodup _ _, fun k => ?_, fun m hm m' hm' hk => ?_⟩
  · rw [bestAux_keys_mem]
    simp only [List.not_mem_nil, not_false_iff, and_true]
    exact ((List.mergeSort_perm _ _).map fun m : Match => get_demand_key m.demand).mem_iff
  · exact bestAux_maximal _ (sorted_sortByScoreDesc _) [] m hm m'
      (mem_sortByScoreDesc.mpr hm') hk

/-- C7: in every `supply_aggregates` group, `total_matches` is the number
of distinct demand keys among the group's matches (not the raw match
count); when every demand key occurs once the two coincide. -/
theorem aggregate_total_matches_counts_unique_keys (demand supply : List NormalizedRecord)
    (min_score : ℤ) (bmo : Bool) :
    ∀ g ∈ (match_records demand supply min_score bmo).supply_aggregates,
      g.total_matches =
        ((g.matches'.map fun m : Match => get_demand_key m.demand).dedup).length ∧
      ((g.matches'.map fun m : Match => get_demand_key m.demand).Nodup →
        g.total_matches = g.matches'.length) := by
  intro g hg
  rw [match_records_supply_aggregates] at hg
  unfold aggregate_by_supply at hg
  have hg' := (List.mergeSort_perm _ _).mem_iff.mp hg
  simp only [List.mem_filterMap] at hg'
  obtain ⟨p, hp, hmk⟩ := hg'
  rcases hsp : sortByScoreDesc p.2 with - | ⟨m0, rest⟩ <;>
    unfold mkAggregate at hmk <;> rw [hsp] at hmk
  · exact absurd hmk (by simp)
  · have hge := Option.some.inj hmk
    subst hge
    refine ⟨rfl, fun hnd => ?_⟩
    show (((m0 :: rest).map fun m : Match => get_demand_key m.demand).dedup).length =
      (m0 :: rest).length
    rw [List.dedup_eq_self.mpr hnd, List.length_map]

/-- C8: `stats.avg_score` is the rounded (half-to-even, as Python's
`round`) mean of the scores of all scored pairs that pass the
`min_score` threshold, taken before `best_match_only` filtering, and 0
when no pair passes. -/
theorem stats_avg_score_over_all_matches (demand supply : List NormalizedRecord)
    (min_score : ℤ) (bmo : Bool) :
    (match_records demand supply min_score bmo).stats.avg_score =
      if allMatches demand supply min_score = [] then 0
      else pyRound
        ((((allMatches demand supply min_score).map fun m : Match => m.score).sum : ℚ) /
         (((allMatches demand supply min_score).map fun m : Match => m.score).length : ℚ)) := by
  have hperm : (sortByScoreDesc (allMatches demand supply min_score)).Perm
      (allMatches demand supply min_score) := List.mergeSort_perm _ _
  have hmap := hperm.map fun m : Match => m.score
  have hav : (match_records demand supply min_score bmo).stats.avg_score =
      if ((sortByScoreDesc (allMatches demand supply min_score)).map
          fun m : Match => m.score).isEmpty then 0
      else pyRound
        ((((sortByScoreDesc (allMatches demand supply min_score)).map
            fun m : Match => m.score).sum : ℚ) /
         (((sortByScoreDesc (allMatches demand supply min_score)).map
            fun m : Match => m.score).length : ℚ)) := rfl
  rw [hav]
  by_cases hnil : allMatches demand supply min_score = []
  · have h0 : sortByScoreDesc (allMatches demand supply min_score) = [] := by
      rw [hnil]
      exact List.mergeSort_nil
    rw [h0, if_pos hnil]
    simp
  · have hsnil : sortByScoreDesc (allMatches demand supply min_score) ≠ [] := by
      intro h
      apply hnil
      have hlen := hperm.length_eq
      rw [h] at hlen
      exact List.length_eq_zero.mp hlen.symm
    rw [if_neg (by simp only [List.isEmpty_iff, List.map_eq_nil_iff]; exact hsnil), if_neg hnil,
      hmap.sum_eq, hmap.length_eq]

/-! The expanded set of `expand_semantic_signals` only ever grows. -/

lemma foldl_expanded_mono (f : ExpState → String → ExpState)
    (hf : ∀ st e, st.expanded ⊆ (f st e).expanded) :
    ∀ (l : List String) (st : ExpState), st.expanded ⊆ (l.foldl f st).expanded := by
  intro l
  induction l with
  | nil => intro st; simp
  | cons e rest ih =>
    intro st
    rw [List.foldl_cons]
    exact (hf st e).trans (ih _)

lemma addAll_expanded_mono (tag : String) (st : ExpState) (exps : List String) :
    st.expanded ⊆ (addAll tag st exps).expanded :=
  foldl_expanded_mono _
    (fun st e => by dsimp only; exact Finset.subset_insert _ _) exps st

lemma addAllNew_expanded_mono (tag : String) (st : ExpState) (exps : List String) :
    st.expanded ⊆ (addAllNew tag st exps).expanded :=
  foldl_expanded_mono _
    (fun st e => by
      dsimp only
      split
      · exact Finset.Subset.refl _
      · exact Finset.subset_insert _ _) exps st

lemma processToken_expanded_mono (ctx : SemanticContext) (st : ExpState) (t : String) :
    st.expanded ⊆ (processToken ctx st t).expanded := by
  unfold processToken
  dsimp only
  repeat' split
  all_goals
    first
      | exact Finset.Subset.refl _
      | exact addAll_expanded_mono _ _ _
      | exact (addAll_expanded_mono _ _ _).trans (addAll_expanded_mono _ _ _)

lemma tokenPhase_expanded_mono (tokens : List String) (ctx : SemanticContext) :
    ((tokens.map strLower).toFinset : Finset String) ⊆
      (tokenPhase tokens ctx).expanded :=
  foldl_expanded_mono _ (processToken_expanded_mono ctx) tokens
    ⟨(tokens.map strLower).toFinset, []⟩

lemma supplyTextPhase_expanded_mono (ctx : SemanticContext) (st : ExpState) :
    st.expanded ⊆ (supplyTextPhase ctx st).expanded := by
  unfold supplyTextPhase
  split
  · exact addAllNew_expanded_mono _ _ _
  · exact Finset.Subset.refl _

lemma demandTextPhase_expanded_mono (ctx : SemanticContext) (st : ExpState) :
    st.expanded ⊆ (demandTextPhase ctx st).expanded := by
  unfold demandTextPhase
  split
  · exact addAllNew_expanded_mono _ _ _
  · exact Finset.Subset.refl _

lemma expand_semantic_signals_eq (tokens : List String) (ctx : SemanticContext) :
    expand_semantic_signals tokens ctx =
      ⟨(tokens.map strLower).toFinset,
       (demandTextPhase ctx (supplyTextPhase ctx (tokenPhase tokens ctx))).expanded,
       (demandTextPhase ctx (supplyTextPhase ctx (tokenPhase tokens ctx))).reasons⟩ := rfl

/-- C10: the base set of `expand_semantic_signals` is exactly the set of
lowercased input tokens, and the expanded set is a superset of it —
expansion only ever adds tokens. -/
theorem expand_semantic_signals_superset (tokens : List String) (ctx : SemanticContext) :
    (expand_semantic_signals tokens ctx).base = (tokens.map strLower).toFinset ∧
    (expand_semantic_signals tokens ctx).base ⊆
      (expand_semantic_signals tokens ctx).expanded := by
  rw [expand_semantic_signals_eq]
  refine ⟨rfl, ?_⟩
  exact (tokenPhase_expanded_mono tokens ctx).trans
    ((supplyTextPhase_expanded_mono ctx _).trans (demandTextPhase_expanded_mono ctx _))

/-- C4 counterexample: for the ambiguous term `growth` on the supply
side, the gate is the *hiring*-context family, not the recruiting one:
the text `"team"` contains no recruiting-context keyword
(`recruit|recruiting|staffing|talent|headhunt|placement|sourcing`), yet
`resolve_ambiguous_term` returns `capability`. -/
theorem resolve_growth_supply_counterexample :
    resolve_ambiguous_term "growth" ⟨Side.supply, "team"⟩ = some Resolution.capability ∧
    reSearch recruitingContextRe "team" = false := by decide

/-- C4 (amended): on the supply side, each of
`engineering`/`engineer`/`engineers`, `sales`, `marketing` resolves to
`capability` exactly when the text contains a recruiting-context keyword
(`\b(recruit|recruiting|staffing|talent|headhunt|placement|sourcing)\b`);
`growth`, however, resolves to `capability` exactly when the text
contains a *hiring*-context keyword
(`\b(hire|hiring|team|headcount|recruit|talent|staffing|placement)\b`). -/
theorem resolve_supply_capability_context (term text : String) :
    ((strLower term) ∈ ["engineering", "engineer", "engineers", "sales", "marketing"] →
      (resolve_ambiguous_term term ⟨Side.supply, text⟩ = some Resolution.capability ↔
        reSearch recruitingContextRe (strLower text) = true)) ∧
    ((strLower term) = "growth" →
      (resolve_ambiguous_term term ⟨Side.supply, text⟩ = some Resolution.capability ↔
        reSearch hiringContextRe (strLower text) = true)) := by
  constructor
  · intro hmem
    unfold resolve_ambiguous_term
    dsimp only
    simp only [List.mem_cons, List.not_mem_nil, or_false] at hmem
    rcases hmem with h | h | h | h | h <;> rw [h] <;>
      (by_cases hr : reSearch recruitingContextRe (strLower text) = true <;>
        simp [hr, Side.isDemand, Side.isSupply])
  · intro hg
    unfold resolve_ambiguous_term
    dsimp only
    rw [hg]
    by_cases hh : reSearch hiringContextRe (strLower text) = true <;>
      simp [hh, Side.isDemand, Side.isSupply]

theorem resolve_supply_capability_context_witness :
    resolve_ambiguous_term "sales" ⟨Side.supply, "staffing firm"⟩ =
      some Resolution.capability :=
  ((resolve_supply_capability_context "sales" "staffing firm").1 (by decide)).mpr (by decide)

/-- A supply record whose description carries the staffing keyword but
not the literal substring `recruit`. -/
def staffingSupply : NormalizedRecord := { company_description := "staffing agency" }

/-- A supply record whose description contains the substring `recruit`. -/
def recruitingAgencySupply : NormalizedRecord :=
  { company_description := "recruiting agency" }

/-- C5 counterexample: the record with description `"staffing agency"`
is classified `recruiting` by a keyword found in the description, yet
the returned confidence/source are `0.7` / `company_name` (the source
keys confidence and source on the literal substring `recruit`, not on
where the triggering keyword was found). -/
theorem capability_confidence_source_counterexample :
    (extract_capability_from_supply staffingSupply).category = "recruiting" ∧
    containsStr (strLower staffingSupply.company_description) "staffing" = true ∧
    (extract_capability_from_supply staffingSupply).confidence = 7/10 ∧
    (extract_capability_from_supply staffingSupply).source = "company_name" := by
  with_unfolding_all decide

lemma capability_ite_ne {c : Prop} [Decidable c] {a b : CapabilityProfile}
    (ha : a.category ≠ "recruiting") (hb : b.category ≠ "recruiting") :
    (if c then a else b).category ≠ "recruiting" := by
  split <;> assumption

lemma fallback_category_ne_recruiting (combined title : String) :
    (extract_capability_fallback combined title).category ≠ "recruiting" := by
  unfold extract_capability_fallback
  repeat' apply capability_ite_ne
  all_goals decide

/-- C5 (amended): whenever `extract_capability_from_supply` classifies a
record as `recruiting`, confidence and source are keyed on where the
literal substring `recruit` occurs: description → `0.95`/`description`,
else title → `0.85`/`title`, else `0.7`/`company_name` — regardless of
the field containing the keyword that triggered the classification. -/
theorem recruiting_confidence_source_by_recruit_substring (supply : NormalizedRecord)
    (h : (extract_capability_from_supply supply).category = "recruiting") :
    (extract_capability_from_supply supply).confidence =
      (if containsStr (strLower supply.company_description) "recruit" then (0.95 : ℚ)
       else if containsStr (strLower supply.title) "recruit" then 0.85 else 0.7) ∧
    (extract_capability_from_supply supply).source =
      (if containsStr (strLower supply.company_description) "recruit" then "description"
       else if containsStr (strLower supply.title) "recruit" then "title"
       else "company_name") := by
  unfold extract_capability_from_supply at h ⊢
  dsimp only at h ⊢
  split_ifs at h ⊢ <;>
    first
      | exact ⟨rfl, rfl⟩
      | exact absurd h (by decide)
      | exact absurd h (fallback_category_ne_recruiting _ _)

theorem recruiting_confidence_source_witness :
    (extract_capability_from_supply recruitingAgencySupply).category = "recruiting" ∧
    ((extract_capability_from_supply recruitingAgencySupply).confidence =
      (if containsStr (strLower recruitingAgencySupply.company_description) "recruit"
        then (0.95 : ℚ)
       else if containsStr (strLower recruitingAgencySupply.title) "recruit" then 0.85
       else 0.7) ∧
     (extract_capability_from_supply recruitingAgencySupply).source =
      (if containsStr (strLower recruitingAgencySupply.company_description) "recruit"
        then "description"
       else if containsStr (strLower recruitingAgencySupply.title) "recruit" then "title"
       else "company_name")) :=
  ⟨by decide, recruiting_confidence_source_by_recruit_substring _ (by decide)⟩

/-- The provenance list recorded for a key in the `reasons` dict. -/
def reasonsOf (reasons : List (String × List String)) (k : String) : List String :=
  ((reasons.find? fun p => p.1 == k).map (·.2)).getD []

lemma keyMap_comp (k tag : String) :
    ((fun p : String × List String => p.1 == k) ∘
      fun p : String × List String => if p.1 == k then (p.1, p.2 ++ [tag]) else p) =
    fun p : String × List String => p.1 == k := by
  funext p
  by_cases hpk : p.1 = k <;> simp [hpk]

lemma addReason_self (rs : List (String × List String)) (k tag : String) :
    tag ∈ reasonsOf (addReason rs k tag) k := by
  unfold addReason reasonsOf
  split
  · next hp =>
    rw [List.find?_map, keyMap_comp k tag]
    obtain ⟨q, hq⟩ := Option.isSome_iff_exists.mp (List.find?_isSome.mpr
      (List.any_eq_true.mp hp))
    rw [hq]
    have hqk := List.find?_some hq
    simp only [Option.map_some', Option.getD_some]
    rw [if_pos hqk]
    simp
  · next hp =>
    have hnone : rs.find? (fun p => p.1 == k) = none := by
      rw [List.find?_eq_none]
      intro p hpmem hb
      simp only [List.any_eq_true, not_exists] at hp
      exact hp p ⟨hpmem, hb⟩
    rw [List.find?_append, hnone]
    simp

lemma keyMap_comp' (k k2 t2 : String) :
    ((fun p : String × List String => p.1 == k) ∘
      fun p : String × List String => if p.1 == k2 then (p.1, p.2 ++ [t2]) else p) =
    fun p : String × List String => p.1 == k := by
  funext p
  by_cases hpk : p.1 = k2 <;> simp [hpk]

lemma addReason_preserve {rs : List (String × List String)} {k tag : String}
    (k2 t2 : String) (h : tag ∈ reasonsOf rs k) :
    tag ∈ reasonsOf (addReason rs k2 t2) k := by
  unfold reasonsOf at h
  unfold addReason reasonsOf
  cases hf : rs.find? (fun p => p.1 == k) with
  | none =>
    rw [hf] at h
    simp at h
  | some q =>
    rw [hf] at h
    simp only [Option.map_some', Option.getD_some] at h
    split
    · rw [List.find?_map, keyMap_comp' k k2 t2, hf]
      simp only [Option.map_some', Option.getD_some]
      split
      · simp only []
        exact List.mem_append_left _ h
      · exact h
    · rw [List.find?_append, hf]
      simp [h]

lemma addAllNew_step (tag : String) (st : ExpState) (x : String) (rest : List String) :
    addAllNew tag st (x :: rest) =
      addAllNew tag
        (if strLower x ∈ st.expanded then st
         else ⟨insert (strLower x) st.expanded, addReason st.reasons (strLower x) tag⟩)
        rest := rfl

lemma addAllNew_mem (tag : String) :
    ∀ (l : List String) (st : ExpState), ∀ e ∈ l,
      strLower e ∈ (addAllNew tag st l).expanded := by
  intro l
  induction l with
  | nil => simp
  | cons x rest ih =>
    intro st e he
    rw [addAllNew_step]
    rcases List.mem_cons.mp he with rfl | hrest
    · refine Finset.mem_of_subset (addAllNew_expanded_mono _ _ _) ?_
      split
      · next hx => exact hx
      · exact Finset.mem_insert_self _ _
    · exact ih _ e hrest

lemma addAllNew_reason_aux (tag e : String) :
    ∀ (l : List String) (st : ExpState),
      ((e ∈ l ∧ strLower e ∉ st.expanded) ∨ tag ∈ reasonsOf st.reasons (strLower e)) →
      tag ∈ reasonsOf (addAllNew tag st l).reasons (strLower e) := by
  intro l
  induction l with
  | nil =>
    intro st h
    rcases h with ⟨hmem, -⟩ | h
    · simp at hmem
    · simpa [addAllNew] using h
  | cons x rest ih =>
    intro st h
    rw [addAllNew_step]
    apply ih
    rcases h with ⟨hmem, hne⟩ | hr
    · rcases List.mem_cons.mp hmem with rfl | hrest
      · right
        rw [if_neg hne]
        exact addReason_self _ _ _
      · by_cases hx : strLower x ∈ st.expanded
        · rw [if_pos hx]
          exact Or.inl ⟨hrest, hne⟩
        · rw [if_neg hx]
          by_cases hex : strLower e = strLower x
          · right
            dsimp only
            rw [hex]
            exact addReason_self _ _ _
          · left
            refine ⟨hrest, ?_⟩
            dsimp only
            intro hmem'
            rcases Finset.mem_insert.mp hmem' with h' | h'
            · exact hex h'
            · exact hne h'
    · right
      by_cases hx : strLower x ∈ st.expanded
      · rw [if_pos hx]
        exact hr
      · rw [if_neg hx]
        exact addReason_preserve _ _ hr

/-- C6 counterexample: the supply text `"recruiter"` contains the
substring `recruit`, but the source regex is word-bounded
(`\b(recruit|recruiting|staffing|talent|headhunt|placement)\b`), so no
expansion is unioned in: the expanded set stays empty and no
`text:recruiting_detected` provenance is recorded. -/
theorem text_recruiting_detection_counterexample :
    containsStr "recruiter" "recruit" = true ∧
    (expand_semantic_signals [] ⟨Side.supply, "recruiter"⟩).expanded = ∅ ∧
    (expand_semantic_signals [] ⟨Side.supply, "recruiter"⟩).reasons = [] := by
  with_unfolding_all decide

attribute [irreducible] addAllNew

lemma demandTextPhase_supply (text : String) (st : ExpState) :
    demandTextPhase ⟨Side.supply, text⟩ st = st := by
  unfold demandTextPhase
  simp [Side.isDemand]

lemma supplyTextPhase_pos (text : String) (st : ExpState)
    (h : reSearch textRecruitRe (strLower text) = true) :
    supplyTextPhase ⟨Side.supply, text⟩ st =
      addAllNew "text:recruiting_detected" st
        ((lookupExpansion supplyCapabilityExpansions "recruiting").getD []) := by
  unfold supplyTextPhase
  have hcond : ((⟨Side.supply, text⟩ : SemanticContext).side.isSupply &&
      reSearch textRecruitRe (strLower (⟨Side.supply, text⟩ : SemanticContext).text)) =
      true := by
    simpa [Side.isSupply] using h
  rw [if_pos hcond]

/-- C6 (amended): for every supply-side text matching the word-bounded
regex `\b(recruit|recruiting|staffing|talent|headhunt|placement)\b`,
`expand_semantic_signals` unions the full `recruiting` capability
expansion set into the expanded token set, and each token that was not
already present after the token loop is tagged with provenance
`text:recruiting_detected`. -/
theorem supply_text_detection_unions_recruiting (tokens : List String) (text : String)
    (h : reSearch textRecruitRe (strLower text) = true) :
    ∀ e ∈ (lookupExpansion supplyCapabilityExpansions "recruiting").getD [],
      strLower e ∈ (expand_semantic_signals tokens ⟨Side.supply, text⟩).expanded ∧
      (strLower e ∉ (tokenPhase tokens ⟨Side.supply, text⟩).expanded →
        "text:recruiting_detected" ∈
          reasonsOf (expand_semantic_signals tokens ⟨Side.supply, text⟩).reasons
            (strLower e)) := by
  intro e he
  have hstate : demandTextPhase ⟨Side.supply, text⟩ (supplyTextPhase ⟨Side.supply, text⟩
        (tokenPhase tokens ⟨Side.supply, text⟩)) =
      addAllNew "text:recruiting_detected" (tokenPhase tokens ⟨Side.supply, text⟩)
        ((lookupExpansion supplyCapabilityExpansions "recruiting").getD []) := by
    rw [supplyTextPhase_pos _ _ h, demandTextPhase_supply]
  have hexp : (expand_semantic_signals tokens ⟨Side.supply, text⟩).expanded =
      (addAllNew "text:recruiting_detected" (tokenPhase tokens ⟨Side.supply, text⟩)
        ((lookupExpansion supplyCapabilityExpansions "recruiting").getD [])).expanded :=
    congrArg ExpState.expanded hstate
  have hreas : (expand_semantic_signals tokens ⟨Side.supply, text⟩).reasons =
      (addAllNew "text:recruiting_detected" (tokenPhase tokens ⟨Side.supply, text⟩)
        ((lookupExpansion supplyCapabilityExpansions "recruiting").getD [])).reasons :=
    congrArg ExpState.reasons hstate
  rw [hexp, hreas]
  generalize tokenPhase tokens ⟨Side.supply, text⟩ = st0
  exact ⟨addAllNew_mem _ _ _ e he,
    fun hne => addAllNew_reason_aux _ _ _ _ (Or.inl ⟨he, hne⟩)⟩

theorem supply_text_detection_witness :
    strLower "hiring" ∈
      (expand_semantic_signals [] ⟨Side.supply, "staffing firm"⟩).expanded ∧
    "text:recruiting_detected" ∈
      reasonsOf (expand_semantic_signals [] ⟨Side.supply, "staffing firm"⟩).reasons
        (strLower "hiring") := by
  have h := supply_text_detection_unions_recruiting [] "staffing firm"
    (by with_unfolding_all decide) "hiring" (by with_unfolding_all decide)
  exact ⟨h.1, h.2 (by with_unfolding_all decide)⟩

/-! Concrete sample records used to witness the orchestrator theorems. -/

def sampleDemand : NormalizedRecord := { record_key := "d1" }

def sampleSupply : NormalizedRecord := { record_key := "s1" }

def sampleMatch : Match := score_match sampleDemand sampleSupply

lemma allMatches_singleton (d s : NormalizedRecord) (ms : ℤ)
    (h : ms ≤ (score_match d s).score) :
    allMatches [d] [s] ms = [score_match d s] := by
  show ([s].filterMap fun s' =>
    let m := score_match d s'
    if m.score ≥ ms then some m else none) ++ [] = [score_match d s]
  rw [List.append_nil]
  simp only [List.filterMap_cons, List.filterMap_nil]
  rw [if_pos h]

lemma sample_allMatches : allMatches [sampleDemand] [sampleSupply] 0 = [sampleMatch] := by
  apply allMatches_singleton
  rw [score_match_score]
  have := six_le_totalScore sampleDemand sampleSupply
  omega

lemma sample_sorted : sortByScoreDesc [sampleMatch] = [sampleMatch] :=
  List.mergeSort_singleton _

lemma sample_demand_matches :
    (match_records [sampleDemand] [sampleSupply] 0 false).demand_matches =
      [sampleMatch] := by
  rw [match_records_demand_matches]
  show sortByScoreDesc (allMatches [sampleDemand] [sampleSupply] 0) = [sampleMatch]
  rw [sample_allMatches]
  exact sample_sorted

lemma sample_best_matches :
    (match_records [sampleDemand] [sampleSupply] 0 true).demand_matches =
      [sampleMatch] := by
  rw [match_records_demand_matches]
  show get_best_match_per_demand (sortByScoreDesc (allMatches [sampleDemand] [sampleSupply] 0)) =
    [sampleMatch]
  rw [sample_allMatches, sample_sorted]
  rfl

theorem match_records_score_in_range_witness :
    sampleMatch ∈ (match_records [sampleDemand] [sampleSupply] 0 false).demand_matches ∧
    1 ≤ sampleMatch.score ∧ sampleMatch.score ≤ 100 := by
  have hmem : sampleMatch ∈
      (match_records [sampleDemand] [sampleSupply] 0 false).demand_matches := by
    rw [sample_demand_matches]
    exact List.mem_singleton.mpr rfl
  have h := (match_records_score_in_range [sampleDemand] [sampleSupply] 0 false).1
    sampleMatch hmem
  exact ⟨hmem, h.1, h.2⟩

theorem best_match_only_unique_and_maximal_witness :
    (get_demand_key sampleMatch.demand ∈
      (match_records [sampleDemand] [sampleSupply] 0 true).demand_matches.map
        fun m : Match => get_demand_key m.demand) ∧
    sampleMatch.score ≤ sampleMatch.score := by
  have hall : sampleMatch ∈ allMatches [sampleDemand] [sampleSupply] 0 := by
    rw [sample_allMatches]
    exact List.mem_singleton.mpr rfl
  have hdm : sampleMatch ∈
      (match_records [sampleDemand] [sampleSupply] 0 true).demand_matches := by
    rw [sample_best_matches]
    exact List.mem_singleton.mpr rfl
  have thm := best_match_only_unique_and_maximal [sampleDemand] [sampleSupply] 0
  exact ⟨(thm.2.1 _).mpr (List.mem_map.mpr ⟨sampleMatch, hall, rfl⟩),
    thm.2.2 sampleMatch hdm sampleMatch hall rfl⟩

def sampleAgg : SupplyAggregate := ⟨sampleMatch.supply, [sampleMatch], sampleMatch, 1⟩

lemma sample_mkAgg :
    mkAggregate (get_supply_key sampleMatch.supply, [sampleMatch]) = some sampleAgg := by
  unfold mkAggregate
  rw [show sortByScoreDesc ((get_supply_key sampleMatch.supply, [sampleMatch]).2) =
      [sampleMatch] from sample_sorted]
  rfl

lemma sample_aggregates :
    (match_records [sampleDemand] [sampleSupply] 0 false).supply_aggregates =
      [sampleAgg] := by
  rw [match_records_supply_aggregates, sample_demand_matches]
  unfold aggregate_by_supply
  have hg : groupBySupply [sampleMatch] =
      [(get_supply_key sampleMatch.supply, [sampleMatch])] := rfl
  rw [hg, List.filterMap_cons_some sample_mkAgg, List.filterMap_nil]
  exact List.mergeSort_singleton _

theorem aggregate_total_matches_witness :
    sampleAgg ∈ (match_records [sampleDemand] [sampleSupply] 0 false).supply_aggregates ∧
    sampleAgg.total_matches =
      ((sampleAgg.matches'.map fun m : Match => get_demand_key m.demand).dedup).length := by
  have hmem : sampleAgg ∈
      (match_records [sampleDemand] [sampleSupply] 0 false).supply_aggregates := by
    rw [sample_aggregates]
    exact List.mem_singleton.mpr rfl
  exact ⟨hmem,
    (aggregate_total_matches_counts_unique_keys [sampleDemand] [sampleSupply] 0 false
      sampleAgg hmem).1⟩

end Signalis
